import Mathlib

/-!
Verification of the lime web server's request-to-file resolution and
response-construction engine (`src/server.rs`), as a shallow embedding.

Paths are modelled in component form, mirroring the semantics of Rust's
`std::path` component iterator (empty and `.` segments are skipped; a path is
absolute when it starts with `/`).  The filesystem is an abstract record of
deterministic functions standing for the `tokio::fs` calls the server makes
(`canonicalize`, `metadata`, `read`/`read_to_string`, `exists`).  Handlers are
translated function-by-function from `src/server.rs`.
-/

namespace Lime

/-- A POSIX path in component form: whether it is absolute, and its list of
normal components.  Mirrors how Rust's `Path::components` views a path
(empty and `.` segments never appear; `..` is kept as a component). -/
structure PathC where
  absolute : Bool
  segs : List (List Char)
deriving DecidableEq

/-- The characters of the string literal `"html"`. -/
def htmlExtName : List Char := ("html").data

/-- The characters of the file name `"index.html"` (from `handle_index`). -/
def indexName : List Char := ("index.html").data

/-- The characters of the file name `"not-found.html"` (from `not_found` and
`internal_error`). -/
def notFoundName : List Char := ("not-found.html").data

/-- The `..` path component. -/
def dotdotSeg : List Char := ("..").data

/-- The `.` path component (skipped by the component iterator). -/
def dotSeg : List Char := (".").data

/-- Splits a character list at every `/`, accumulator-style. -/
def splitAux : List Char → List Char → List (List Char)
  | [], acc => [acc.reverse]
  | c :: rest, acc =>
      if c = '/' then acc.reverse :: splitAux rest []
      else splitAux rest (c :: acc)

/-- Parses a raw request-path string (as captured by the `/{*path}` route)
into component form, the way `PathBuf::from(&path)` views it: absolute iff it
starts with `/`; empty and `.` segments are dropped as Rust's component
iterator does. -/
def parsePath (s : List Char) : PathC :=
  { absolute := match s with | '/' :: _ => true | _ => false
    segs := (splitAux s []).filter (fun t => decide (t ≠ [] ∧ t ≠ dotSeg)) }

/-- `PathBuf::join`: an absolute right operand replaces the left path,
otherwise the components are concatenated. -/
def pjoin (p q : PathC) : PathC :=
  if q.absolute then q else ⟨p.absolute, p.segs ++ q.segs⟩

/-- `Path::file_name`: the last component, unless there is none or it is
`..`. -/
def fileName (p : PathC) : Option (List Char) :=
  match p.segs.getLast? with
  | none => none
  | some s => if s = dotdotSeg then none else some s

/-- The portion of a file name after its last `.`. -/
def afterLastDot (f : List Char) : List Char :=
  (f.reverse.takeWhile (fun c => decide (c ≠ '.'))).reverse

/-- `Path::extension` restricted to one file name: `none` when the name has
no `.` past its first character (so names like `.html` have no extension),
otherwise the portion after the last `.`. -/
def extOfName (f : List Char) : Option (List Char) :=
  if '.' ∈ f.drop 1 then some (afterLastDot f) else none

/-- `Path::extension`: the extension of the path's file name. -/
def pathExtension (p : PathC) : Option (List Char) :=
  match fileName p with
  | none => none
  | some s => extOfName s

/-- `Path::file_stem` of one file name: the portion before the last `.`, or
the whole name when it has no extension. -/
def stemOf (f : List Char) : List Char :=
  match extOfName f with
  | none => f
  | some e => f.take (f.length - (e.length + 1))

/-- `PathBuf::set_extension e` (for non-empty `e`): does nothing when the
path has no file name (no components, or last component `..`); otherwise
replaces the file name by `stem ++ "." ++ e`. -/
def setExt (p : PathC) (e : List Char) : PathC :=
  match p.segs.getLast? with
  | none => p
  | some s =>
      if s = dotdotSeg then p
      else ⟨p.absolute, p.segs.dropLast ++ [stemOf s ++ '.' :: e]⟩

/-- `Path::starts_with`: component-wise prefix, with matching absoluteness. -/
def pstartsWith (p base : PathC) : Bool :=
  decide (p.absolute = base.absolute ∧ base.segs <+: p.segs)

/-- A UTF-8 continuation byte (`10xxxxxx`). -/
def utf8Cont (b : Nat) : Bool := decide (128 ≤ b ∧ b ≤ 191)

/-- Validity of a byte sequence as UTF-8, with the usual rejection of
overlong encodings, surrogates, and values above U+10FFFF.  This is the check
`String::from_utf8` performs inside `fs::read_to_string`. -/
def utf8Valid : List Nat → Bool
  | [] => true
  | b :: rest =>
      if b ≤ 127 then utf8Valid rest
      else if b < 194 then false
      else if b ≤ 223 then
        match rest with
        | c :: r => utf8Cont c && utf8Valid r
        | [] => false
      else if b ≤ 239 then
        match rest with
        | c :: d :: r =>
            (if b = 224 then decide (160 ≤ c ∧ c ≤ 191)
             else if b = 237 then decide (128 ≤ c ∧ c ≤ 159)
             else utf8Cont c) && utf8Cont d && utf8Valid r
        | _ => false
      else if b ≤ 244 then
        match rest with
        | c :: d :: e :: r =>
            (if b = 240 then decide (144 ≤ c ∧ c ≤ 191)
             else if b = 244 then decide (128 ≤ c ∧ c ≤ 143)
             else utf8Cont c) && utf8Cont d && utf8Cont e && utf8Valid r
        | _ => false
      else false

/-- The filesystem as the server observes it: deterministic functions for the
`tokio::fs` operations used in `src/server.rs`.  `canon` is `canonicalize`
(`none` on failure), `metadata` returns `some is_dir` on success, `readBin`
is `fs::read`, `pathExists` is `Path::exists`. -/
structure FS where
  canon : PathC → Option PathC
  metadata : PathC → Option Bool
  readBin : PathC → Option (List Nat)
  pathExists : PathC → Bool

/-- `fs::read_to_string` followed by `String::into_bytes`: the raw bytes when
the read succeeds and they are valid UTF-8, failure otherwise. -/
def readToString (fs : FS) (p : PathC) : Option (List Nat) :=
  match fs.readBin p with
  | none => none
  | some bs => if utf8Valid bs then some bs else none

/-- The read in `serve_file`: `read_to_string` in text mode, `read` in binary
mode (src/server.rs lines 148-164). -/
def readContent (fs : FS) (p : PathC) (is_text : Bool) : Option (List Nat) :=
  if is_text then readToString fs p else fs.readBin p

/-- ASCII lowercasing, as applied to the extracted extension in
`handle_wildcard` and inside `mime_guess`'s case-insensitive lookup. -/
def lowerStr (s : List Char) : List Char := s.map Char.toLower

/-- `application/octet-stream`, `mime_guess`'s fallback. -/
def octetStream : List Char := ("application/octet-stream").data

/-- `text/html`, the content type the fallback responses set directly. -/
def textHtmlMime : List Char := ("text/html").data

/-- The fragment of `mime_guess`'s extension-to-MIME table relevant to the
claims (the crate's mapping for these extensions). -/
def mimeTable : List (List Char × List Char) :=
  [(("html").data, ("text/html").data),
   (("htm").data, ("text/html").data),
   (("css").data, ("text/css").data),
   (("png").data, ("image/png").data),
   (("txt").data, ("text/plain").data),
   (("json").data, ("application/json").data)]

/-- `mime_guess::from_path(..).first_or_octet_stream()`: case-insensitive
lookup of the path's extension, defaulting to `application/octet-stream` for
a missing or unknown extension. -/
def mimeGuess (ext : Option (List Char)) : List Char :=
  match ext with
  | none => octetStream
  | some e =>
      match mimeTable.lookup (lowerStr e) with
      | some m => m
      | none => octetStream

/-- The three HTML payloads embedded in the binary with `include_str!`. -/
inductive FixedPage
  | notFoundPage
  | internalErrorPage
  | defaultIndexPage
deriving DecidableEq

/-- A response body: one of the build-time embedded pages, or bytes read from
disk. -/
inductive RBody
  | fixedPage : FixedPage → RBody
  | fileBytes : List Nat → RBody
deriving DecidableEq

/-- An HTTP response as the handlers build it: status code, the
`Content-Type` header value, and the body. -/
structure Resp where
  status : Nat
  contentType : List Char
  body : RBody
deriving DecidableEq

/-- `AppState` from src/server.rs: the two configured root directories. -/
structure AppState where
  pages_dir : PathC
  static_dir : PathC
deriving DecidableEq

/-- The relative path `not-found.html` joined onto a base dir. -/
def notFoundRel : PathC := ⟨false, [notFoundName]⟩

/-- The relative path `index.html` joined onto the pages dir. -/
def indexRel : PathC := ⟨false, [indexName]⟩

/-- `default_internal_error` (src/server.rs lines 232-239): status 500 with
the embedded internal-error page. -/
def default_internal_error : Resp :=
  ⟨500, textHtmlMime, .fixedPage .internalErrorPage⟩

/-- `internal_error` (src/server.rs lines 210-230): serves
`<base>/not-found.html` with status 404 (the code passes
`StatusCode::NOT_FOUND`) when that file exists and is readable, else the
built-in 500 page. -/
def internal_error (fs : FS) (base_dir : PathC) : Resp :=
  if fs.pathExists (pjoin base_dir notFoundRel) = false then
    default_internal_error
  else
    match readToString fs (pjoin base_dir notFoundRel) with
    | none => default_internal_error
    | some content => ⟨404, textHtmlMime, .fileBytes content⟩

/-- `not_found` (src/server.rs lines 184-208): the embedded 404 page when
`<base>/not-found.html` is absent; its content (status 404) when readable;
delegation to `internal_error` when the read fails. -/
def not_found (fs : FS) (base_dir : PathC) : Resp :=
  if fs.pathExists (pjoin base_dir notFoundRel) = false then
    ⟨404, textHtmlMime, .fixedPage .notFoundPage⟩
  else
    match readToString fs (pjoin base_dir notFoundRel) with
    | none => internal_error fs base_dir
    | some content => ⟨404, textHtmlMime, .fileBytes content⟩

/-- `serve_file` (src/server.rs lines 120-182): canonicalize the base dir
(failure → `internal_error`), canonicalize the candidate (failure →
`not_found`), require the canonical candidate to start with the canonical
base (else `not_found`), require metadata of a non-directory (else
`not_found`), read text or binary (failure → `internal_error`), and answer
200 with the `mime_guess` content type for the canonical path. -/
def serve_file (fs : FS) (file_path base_dir : PathC) (is_text : Bool) : Resp :=
  match fs.canon base_dir with
  | none => internal_error fs base_dir
  | some base_canonical =>
    match fs.canon file_path with
    | none => not_found fs base_dir
    | some full_canonical =>
      if pstartsWith full_canonical base_canonical = false then
        not_found fs base_dir
      else
        match fs.metadata full_canonical with
        | none => not_found fs base_dir
        | some is_dir =>
          if is_dir then not_found fs base_dir
          else
            match readContent fs full_canonical is_text with
            | none => internal_error fs base_dir
            | some content =>
                ⟨200, mimeGuess (pathExtension full_canonical), .fileBytes content⟩

/-- `handle_index` (src/server.rs lines 79-90): serve the embedded default
landing page with status 200 when `<pages>/index.html` does not exist, else
serve that file as text. -/
def handle_index (fs : FS) (st : AppState) : Resp :=
  if fs.pathExists (pjoin st.pages_dir indexRel) = false then
    ⟨200, textHtmlMime, .fixedPage .defaultIndexPage⟩
  else
    serve_file fs (pjoin st.pages_dir indexRel) st.pages_dir true

/-- The candidate path `serve_html` computes (src/server.rs lines 112-118):
join the pages dir with the request path, and append the `html` extension
when the joined path has none. -/
def htmlCandidate (base_dir : PathC) (path : List Char) : PathC :=
  let html_path := pjoin base_dir (parsePath path)
  if pathExtension html_path = none then setExt html_path htmlExtName
  else html_path

/-- `serve_html` (src/server.rs lines 112-118). -/
def serve_html (fs : FS) (path : List Char) (base_dir : PathC) : Resp :=
  serve_file fs (htmlCandidate base_dir path) base_dir true

/-- The extension `handle_wildcard` extracts: the request path's extension,
defaulting to `html` when absent, lowercased (src/server.rs lines 97-101). -/
def reqExtension (path : List Char) : List Char :=
  lowerStr ((pathExtension (parsePath path)).getD htmlExtName)

/-- `handle_wildcard` (src/server.rs lines 92-110): non-`html` extensions are
served as binary from the static dir, everything else as HTML from the pages
dir. -/
def handle_wildcard (fs : FS) (path : List Char) (st : AppState) : Resp :=
  if reqExtension path ≠ htmlExtName then
    serve_file fs (pjoin st.static_dir (parsePath path)) st.static_dir false
  else
    serve_html fs path st.pages_dir

/-- The root directory `handle_wildcard` selects for a request path. -/
def wildcardRoot (st : AppState) (path : List Char) : PathC :=
  if reqExtension path ≠ htmlExtName then st.static_dir else st.pages_dir

/-- The candidate file `handle_wildcard` asks `serve_file` for. -/
def wildcardCandidate (st : AppState) (path : List Char) : PathC :=
  if reqExtension path ≠ htmlExtName then pjoin st.static_dir (parsePath path)
  else htmlCandidate st.pages_dir path

/-- Whether `handle_wildcard` reads the candidate as text. -/
def wildcardIsText (path : List Char) : Bool :=
  if reqExtension path ≠ htmlExtName then false else true

/-- `handle_wildcard` factored through the selected root, candidate and
mode. -/
theorem handle_wildcard_eq (fs : FS) (path : List Char) (st : AppState) :
    handle_wildcard fs path st =
      serve_file fs (wildcardCandidate st path) (wildcardRoot st path)
        (wildcardIsText path) := by
  by_cases h : reqExtension path ≠ htmlExtName <;>
    simp [handle_wildcard, wildcardCandidate, wildcardRoot, wildcardIsText,
      serve_html, h]

/-! Basic facts about the fallback responses and `serve_file`. -/

/-- `internal_error` answers 404 (override present and readable) or 500,
never 200. -/
theorem internal_error_status_ne_200 (fs : FS) (b : PathC) :
    (internal_error fs b).status ≠ 200 := by
  unfold internal_error default_internal_error
  split
  · simp
  · split <;> simp

/-- `not_found` never answers 200. -/
theorem not_found_status_ne_200 (fs : FS) (b : PathC) :
    (not_found fs b).status ≠ 200 := by
  unfold not_found
  split
  · simp
  · split
    · exact internal_error_status_ne_200 fs b
    · simp

/-- A successful `read_to_string` returns the underlying bytes, which are
valid UTF-8. -/
theorem readToString_some (fs : FS) (p : PathC) (bs : List Nat)
    (h : readToString fs p = some bs) :
    fs.readBin p = some bs ∧ utf8Valid bs = true := by
  unfold readToString at h
  cases hr : fs.readBin p with
  | none => rw [hr] at h; cases h
  | some cs =>
      simp only [hr] at h
      by_cases hv : utf8Valid cs
      · rw [if_pos hv] at h
        cases h
        exact ⟨rfl, hv⟩
      · rw [if_neg hv] at h
        cases h

/-- A successful read (either mode) returns the underlying bytes. -/
theorem readContent_some (fs : FS) (p : PathC) (t : Bool) (bs : List Nat)
    (h : readContent fs p t = some bs) : fs.readBin p = some bs := by
  unfold readContent at h
  cases t with
  | false => simpa using h
  | true => exact (readToString_some fs p bs (by simpa using h)).1

/-- Inversion for a 200 response with file content: `serve_file` only
produces it after both canonicalizations succeed, the canonical candidate
starts with the canonical base, and the bytes come from reading the
canonical candidate. -/
theorem serve_file_ok_inv (fs : FS) (f b : PathC) (t : Bool) (bs : List Nat)
    (h : (serve_file fs f b t).status = 200)
    (hb : (serve_file fs f b t).body = RBody.fileBytes bs) :
    ∃ bC fC, fs.canon b = some bC ∧ fs.canon f = some fC ∧
      pstartsWith fC bC = true ∧ fs.readBin fC = some bs := by
  unfold serve_file at h hb
  cases hcb : fs.canon b with
  | none =>
      simp only [hcb] at h
      exact absurd h (internal_error_status_ne_200 fs b)
  | some bC =>
      simp only [hcb] at h hb
      cases hcf : fs.canon f with
      | none =>
          simp only [hcf] at h
          exact absurd h (not_found_status_ne_200 fs b)
      | some fC =>
          simp only [hcf] at h hb
          by_cases hs : pstartsWith fC bC = false
          · rw [if_pos hs] at h
            exact absurd h (not_found_status_ne_200 fs b)
          · rw [if_neg hs] at h hb
            cases hm : fs.metadata fC with
            | none =>
                simp only [hm] at h
                exact absurd h (not_found_status_ne_200 fs b)
            | some is_dir =>
                simp only [hm] at h hb
                cases is_dir with
                | true =>
                    rw [if_pos rfl] at h
                    exact absurd h (not_found_status_ne_200 fs b)
                | false =>
                    rw [if_neg (by decide)] at h hb
                    cases hr : readContent fs fC t with
                    | none =>
                        simp only [hr] at h
                        exact absurd h (internal_error_status_ne_200 fs b)
                    | some content =>
                        simp only [hr, RBody.fileBytes.injEq] at hb
                        exact ⟨bC, fC, rfl, rfl, Bool.not_eq_false _ ▸ hs,
                          hb ▸ readContent_some fs fC t content hr⟩

/-- When the canonical candidate escapes the canonical base, `serve_file`
answers with `not_found`. -/
theorem serve_file_escape (fs : FS) (f b bC fC : PathC) (t : Bool)
    (hcb : fs.canon b = some bC) (hcf : fs.canon f = some fC)
    (hs : pstartsWith fC bC = false) :
    serve_file fs f b t = not_found fs b := by
  unfold serve_file
  simp only [hcb, hcf]
  rw [if_pos hs]

/-- The three not-found causes of `serve_file` once the base dir has
canonicalized: the candidate fails to canonicalize, or its canonical form
escapes the base, or metadata fails, or it is a directory. -/
def resolveFailsB (fs : FS) (cand baseC : PathC) : Bool :=
  match fs.canon cand with
  | none => true
  | some cp =>
      !pstartsWith cp baseC || fs.metadata cp == none ||
        fs.metadata cp == some true

/-- Any of the not-found causes sends `serve_file` to `not_found`. -/
theorem serve_file_fails (fs : FS) (f b baseC : PathC) (t : Bool)
    (hcb : fs.canon b = some baseC)
    (hf : resolveFailsB fs f baseC = true) :
    serve_file fs f b t = not_found fs b := by
  unfold resolveFailsB at hf
  unfold serve_file
  simp only [hcb]
  cases hcf : fs.canon f with
  | none => simp only [hcf]
  | some cp =>
      simp only [hcf] at hf ⊢
      by_cases hs : pstartsWith cp baseC = false
      · rw [if_pos hs]
      · rw [if_neg hs]
        rw [Bool.not_eq_false] at hs
        simp only [hs, Bool.not_true, Bool.false_or, Bool.or_eq_true,
          beq_iff_eq] at hf
        cases hm : fs.metadata cp with
        | none => simp only [hm]
        | some d =>
            simp only [hm] at hf ⊢
            cases d with
            | true => rw [if_pos rfl]
            | false => simp at hf


/-- The success path of `serve_file`: both canonicalizations succeed, the
canonical candidate is inside the canonical base, it is a regular file and
the read succeeds, giving a 200 with the classifier's content type. -/
theorem serve_file_success (fs : FS) (f b bC fC : PathC) (t : Bool)
    (bs : List Nat)
    (hcb : fs.canon b = some bC) (hcf : fs.canon f = some fC)
    (hs : pstartsWith fC bC = true) (hm : fs.metadata fC = some false)
    (hr : readContent fs fC t = some bs) :
    serve_file fs f b t =
      ⟨200, mimeGuess (pathExtension fC), .fileBytes bs⟩ := by
  unfold serve_file
  simp [hcb, hcf, hs, hm, hr]

/-! Concrete fixtures used by witnesses and counterexamples: a pages root
`/srv/pages` and static root `/srv/static`, in several filesystem states. -/

/-- The component `srv`. -/
def srvSeg : List Char := ("srv").data

/-- The component `pages`. -/
def pagesSeg : List Char := ("pages").data

/-- The component `static`. -/
def staticSeg : List Char := ("static").data

/-- The pages root `/srv/pages`. -/
def pagesDirW : PathC := ⟨true, [srvSeg, pagesSeg]⟩

/-- The static root `/srv/static`. -/
def staticDirW : PathC := ⟨true, [srvSeg, staticSeg]⟩

/-- The server state with the two roots above. -/
def stW : AppState := ⟨pagesDirW, staticDirW⟩

/-- The file name `about.html`. -/
def aboutHtmlSeg : List Char := ("about.html").data

/-- The file name `bad.html` (a page that is not valid UTF-8). -/
def badHtmlSeg : List Char := ("bad.html").data

/-- The file name `style.css`. -/
def styleCssSeg : List Char := ("style.css").data

/-- `/srv/pages/about.html`. -/
def aboutPathW : PathC := ⟨true, [srvSeg, pagesSeg, aboutHtmlSeg]⟩

/-- `/srv/pages/bad.html`. -/
def badPathW : PathC := ⟨true, [srvSeg, pagesSeg, badHtmlSeg]⟩

/-- `/srv/static/style.css`. -/
def stylePathW : PathC := ⟨true, [srvSeg, staticSeg, styleCssSeg]⟩

/-- `/srv/pages/not-found.html`. -/
def nfPagesPath : PathC := ⟨true, [srvSeg, pagesSeg, notFoundName]⟩

/-- Content of `about.html`: the UTF-8 bytes of `hi`. -/
def aboutBytes : List Nat := [104, 105]

/-- Content of `style.css` (arbitrary bytes). -/
def cssBytes : List Nat := [98, 111, 100, 121]

/-- Content of `bad.html`: a lone `0xFF`, not valid UTF-8. -/
def badBytes : List Nat := [255]

/-- Content of a readable `not-found.html` override. -/
def nfBytes : List Nat := [60, 62]

/-- A healthy filesystem: both roots canonical directories,
`about.html`, `bad.html` and `style.css` regular files (each its own
canonical path), no `index.html` and no `not-found.html`. -/
def fsW : FS :=
  { canon := fun p =>
      if p = pagesDirW ∨ p = staticDirW ∨ p = aboutPathW ∨ p = stylePathW ∨
          p = badPathW then some p else none
    metadata := fun p =>
      if p = pagesDirW ∨ p = staticDirW then some true
      else if p = aboutPathW ∨ p = stylePathW ∨ p = badPathW then some false
      else none
    readBin := fun p =>
      if p = aboutPathW then some aboutBytes
      else if p = stylePathW then some cssBytes
      else if p = badPathW then some badBytes
      else none
    pathExists := fun p =>
      decide (p = aboutPathW ∨ p = stylePathW ∨ p = badPathW ∨
        p = pagesDirW ∨ p = staticDirW) }

/-- A filesystem where the pages root canonicalizes but
`/srv/pages/not-found.html` exists yet cannot be read, and nothing else
resolves. -/
def fsOverrideBroken : FS :=
  { canon := fun p => if p = pagesDirW then some p else none
    metadata := fun _ => none
    readBin := fun _ => none
    pathExists := fun p => decide (p = nfPagesPath) }

/-- A filesystem where no path canonicalizes (misconfigured root) but the
pages root holds a readable `not-found.html` override. -/
def fsNoBase : FS :=
  { canon := fun _ => none
    metadata := fun _ => none
    readBin := fun p => if p = nfPagesPath then some nfBytes else none
    pathExists := fun p => decide (p = nfPagesPath) }

/-- A filesystem where `/srv/pages/bad.html` passes canonicalization, the
sandbox check and the metadata check, but its content read fails; a readable
`not-found.html` override is present. -/
def fsReadFail : FS :=
  { canon := fun p => if p = pagesDirW ∨ p = badPathW then some p else none
    metadata := fun p =>
      if p = badPathW then some false
      else if p = pagesDirW then some true
      else none
    readBin := fun p => if p = nfPagesPath then some nfBytes else none
    pathExists := fun p => decide (p = nfPagesPath) }

/-! Path algebra helpers. -/

/-- Joining a relative path concatenates the components. -/
theorem pjoin_rel (b : PathC) (segs : List (List Char)) :
    pjoin b ⟨false, segs⟩ = ⟨b.absolute, b.segs ++ segs⟩ := rfl

/-- The file name of a path whose last component is explicit. -/
theorem fileName_concat (a : Bool) (l : List (List Char)) (nm : List Char) :
    fileName ⟨a, l ++ [nm]⟩ =
      if nm = dotdotSeg then none else some nm := by
  unfold fileName
  rw [List.getLast?_append_of_ne_nil _ (by simp)]
  simp

/-- A path with a file name has components. -/
theorem fileName_some_segs_ne (p : PathC) (nm : List Char)
    (h : fileName p = some nm) : p.segs ≠ [] := by
  intro hnil
  unfold fileName at h
  rw [hnil] at h
  cases h

/-- Joining does not change the file name of a right operand that has
components. -/
theorem fileName_pjoin (b q : PathC) (h : q.segs ≠ []) :
    fileName (pjoin b q) = fileName q := by
  unfold pjoin
  cases hq : q.absolute with
  | true => rw [if_pos rfl]
  | false =>
      rw [if_neg (by decide)]
      unfold fileName
      rw [List.getLast?_append_of_ne_nil _ h]

/-- Joining does not change the extension of a right operand that has
components. -/
theorem pathExtension_pjoin (b q : PathC) (h : q.segs ≠ []) :
    pathExtension (pjoin b q) = pathExtension q := by
  unfold pathExtension
  rw [fileName_pjoin b q h]

/-- A path with an extension has a file name carrying that extension. -/
theorem pathExtension_some_fileName (p : PathC) (e : List Char)
    (h : pathExtension p = some e) :
    ∃ nm, fileName p = some nm ∧ extOfName nm = some e := by
  unfold pathExtension at h
  cases hf : fileName p with
  | none => rw [hf] at h; cases h
  | some nm => rw [hf] at h; exact ⟨nm, rfl, h⟩

/-- `takeWhile` walks past a block that satisfies the predicate. -/
theorem takeWhile_append_of_all {α : Type} (p : α → Bool) (l₁ l₂ : List α)
    (h : ∀ a ∈ l₁, p a = true) :
    (l₁ ++ l₂).takeWhile p = l₁ ++ l₂.takeWhile p := by
  induction l₁ with
  | nil => rfl
  | cons a l ih =>
      have hpa : p a = true := h a (by simp)
      have ih2 := ih (fun x hx => h x (by simp [hx]))
      simp [List.takeWhile_cons, hpa, ih2]

/-- The segment after the last dot of `s ++ "." ++ e` is `e` when `e` is
dot-free. -/
theorem afterLastDot_append (s e : List Char) (h : '.' ∉ e) :
    afterLastDot (s ++ '.' :: e) = e := by
  unfold afterLastDot
  rw [List.reverse_append, List.reverse_cons, List.append_assoc,
    List.singleton_append]
  have hall : ∀ a ∈ e.reverse, (fun c => decide (c ≠ '.')) a = true := by
    intro a ha
    have hae : a ∈ e := List.mem_reverse.mp ha
    refine decide_eq_true ?_
    intro hc
    rw [hc] at hae
    exact h hae
  rw [takeWhile_append_of_all _ e.reverse ('.' :: s.reverse) hall]
  rw [List.takeWhile_cons_of_neg (by decide)]
  simp

/-- The extension of `s ++ "." ++ e` is `e` when `s` is non-empty and `e` is
dot-free. -/
theorem extOfName_append (s e : List Char) (hs : s ≠ []) (h : '.' ∉ e) :
    extOfName (s ++ '.' :: e) = some e := by
  have hmem : '.' ∈ (s ++ '.' :: e).drop 1 := by
    cases s with
    | nil => exact absurd rfl hs
    | cons c s' => simp
  unfold extOfName
  rw [if_pos hmem, afterLastDot_append s e h]

/-- A name with no extension is its own stem. -/
theorem stemOf_of_none (nm : List Char) (hx : extOfName nm = none) :
    stemOf nm = nm := by
  unfold stemOf
  rw [hx]

/-- `set_extension "html"` on a path whose file name has no extension:
the file name becomes `name ++ ".html"`, and the result's extension is
`html`. -/
theorem setExt_of_noext (p : PathC) (nm : List Char)
    (hf : p.segs.getLast? = some nm) (hnd : nm ≠ dotdotSeg) (hne : nm ≠ [])
    (hx : extOfName nm = none) :
    setExt p htmlExtName =
      ⟨p.absolute, p.segs.dropLast ++ [nm ++ '.' :: htmlExtName]⟩ ∧
    pathExtension (setExt p htmlExtName) = some htmlExtName := by
  have heq : setExt p htmlExtName =
      ⟨p.absolute, p.segs.dropLast ++ [nm ++ '.' :: htmlExtName]⟩ := by
    unfold setExt
    rw [hf]
    simp only [if_neg hnd]
    rw [stemOf_of_none nm hx]
  refine ⟨heq, ?_⟩
  rw [heq]
  unfold pathExtension
  rw [fileName_concat]
  rw [if_neg ?_]
  · exact extOfName_append nm htmlExtName hne (by decide)
  · intro hcon
    have hlen := congrArg List.length hcon
    have h4 : htmlExtName.length = 4 := by decide
    have h2 : dotdotSeg.length = 2 := by decide
    simp [List.length_append] at hlen
    omega

/-- A relative single-segment path is inside any base it is joined onto. -/
theorem pstartsWith_pjoin (b : PathC) (segs : List (List Char)) :
    pstartsWith (pjoin b ⟨false, segs⟩) b = true := by
  rw [pjoin_rel]
  exact decide_eq_true ⟨rfl, List.prefix_append _ _⟩

/-- A read failure after the guard checks sends `serve_file` to
`internal_error`. -/
theorem serve_file_read_fail (fs : FS) (f b bC fC : PathC) (t : Bool)
    (hcb : fs.canon b = some bC) (hcf : fs.canon f = some fC)
    (hs : pstartsWith fC bC = true) (hm : fs.metadata fC = some false)
    (hrf : readContent fs fC t = none) :
    serve_file fs f b t = internal_error fs b := by
  unfold serve_file
  simp [hcb, hcf, hs, hm, hrf]

/-- For a single-segment request path whose name has no extension,
`serve_html`'s candidate is that name with `.html` appended, under the
base. -/
theorem htmlCandidate_single_noext (b : PathC) (p nm : List Char)
    (hp : parsePath p = ⟨false, [nm]⟩) (hnd : nm ≠ dotdotSeg) (hne : nm ≠ [])
    (hx : extOfName nm = none) :
    htmlCandidate b p = pjoin b ⟨false, [nm ++ '.' :: htmlExtName]⟩ := by
  unfold htmlCandidate
  rw [hp, pjoin_rel]
  have hfn : fileName ⟨b.absolute, b.segs ++ [nm]⟩ = some nm := by
    rw [fileName_concat, if_neg hnd]
  have hpe : pathExtension ⟨b.absolute, b.segs ++ [nm]⟩ = none := by
    unfold pathExtension
    simp only [hfn, hx]
  rw [if_pos hpe]
  have hgl : (PathC.mk b.absolute (b.segs ++ [nm])).segs.getLast? = some nm := by
    simp
  have hset := setExt_of_noext ⟨b.absolute, b.segs ++ [nm]⟩ nm hgl hnd hne hx
  rw [hset.1, pjoin_rel]
  simp

/-- For a single-segment request path whose name already has an extension,
`serve_html`'s candidate is the bare join. -/
theorem htmlCandidate_single_ext (b : PathC) (p nm e : List Char)
    (hp : parsePath p = ⟨false, [nm]⟩) (hnd : nm ≠ dotdotSeg)
    (hx : extOfName nm = some e) :
    htmlCandidate b p = pjoin b ⟨false, [nm]⟩ := by
  unfold htmlCandidate
  rw [hp, pjoin_rel]
  have hpe : pathExtension ⟨b.absolute, b.segs ++ [nm]⟩ = some e := by
    unfold pathExtension
    simp only [fileName_concat, if_neg hnd, hx]
  rw [if_neg (by simp [hpe])]

/-- C1: for every request path, including ones with `../` segments or
absolute-path-like segments, a 200 response carrying file content can only
arise after the selected root and the candidate both canonicalize, with the
canonical candidate a descendant of the canonical root and the body read
from that canonical path; and a candidate whose canonical path escapes the
root is answered with the not-found response instead of file content.  The
index route satisfies the same bound for the pages root. -/
theorem sandbox_guard_c1 (fs : FS) (st : AppState) (p : List Char) :
    (∀ bs, (handle_wildcard fs p st).status = 200 →
        (handle_wildcard fs p st).body = RBody.fileBytes bs →
        ∃ rootC candC, fs.canon (wildcardRoot st p) = some rootC ∧
          fs.canon (wildcardCandidate st p) = some candC ∧
          pstartsWith candC rootC = true ∧ fs.readBin candC = some bs) ∧
    (∀ bs, (handle_index fs st).status = 200 →
        (handle_index fs st).body = RBody.fileBytes bs →
        ∃ rootC candC, fs.canon st.pages_dir = some rootC ∧
          fs.canon (pjoin st.pages_dir indexRel) = some candC ∧
          pstartsWith candC rootC = true ∧ fs.readBin candC = some bs) ∧
    (∀ rootC candC, fs.canon (wildcardRoot st p) = some rootC →
        fs.canon (wildcardCandidate st p) = some candC →
        pstartsWith candC rootC = false →
        handle_wildcard fs p st = not_found fs (wildcardRoot st p)) := by
  refine ⟨?_, ?_, ?_⟩
  · intro bs h hb
    rw [handle_wildcard_eq] at h hb
    exact serve_file_ok_inv fs _ _ _ bs h hb
  · intro bs h hb
    unfold handle_index at h hb
    by_cases he : fs.pathExists (pjoin st.pages_dir indexRel) = false
    · rw [if_pos he] at hb
      simp at hb
    · rw [if_neg he] at h hb
      exact serve_file_ok_inv fs _ _ _ bs h hb
  · intro rootC candC h1 h2 h3
    rw [handle_wildcard_eq]
    exact serve_file_escape fs _ _ rootC candC _ h1 h2 h3

/-- Witness for C1 at a concrete filesystem serving `/style.css`. -/
theorem sandbox_guard_c1_witness :
    ∃ rootC candC,
      fsW.canon (wildcardRoot stW (("style.css").data)) = some rootC ∧
      fsW.canon (wildcardCandidate stW (("style.css").data)) = some candC ∧
      pstartsWith candC rootC = true ∧ fsW.readBin candC = some cssBytes :=
  (sandbox_guard_c1 fsW stW (("style.css").data)).1 cssBytes
    (by decide) (by decide)

/-- C3: when `<pages>/index.html` does not exist, `/` is answered 200 with
the built-in default landing page; when it exists, `/` is served from that
file. -/
theorem index_default_c3 (fs : FS) (st : AppState) :
    (fs.pathExists (pjoin st.pages_dir indexRel) = false →
        (handle_index fs st).status = 200 ∧
        (handle_index fs st).body =
          RBody.fixedPage FixedPage.defaultIndexPage) ∧
    (fs.pathExists (pjoin st.pages_dir indexRel) = true →
        handle_index fs st =
          serve_file fs (pjoin st.pages_dir indexRel) st.pages_dir true) := by
  constructor
  · intro h
    unfold handle_index
    rw [if_pos h]
    exact ⟨rfl, rfl⟩
  · intro h
    unfold handle_index
    rw [if_neg (by rw [h]; decide)]

/-- Witness for C3 on a filesystem without `index.html`. -/
theorem index_default_c3_witness :
    (handle_index fsW stW).status = 200 ∧
    (handle_index fsW stW).body = RBody.fixedPage FixedPage.defaultIndexPage :=
  (index_default_c3 fsW stW).1 (by decide)

/-- C8: when `<static>/style.css` is a regular readable file inside the
canonical static root, `/style.css` is answered 200 with `text/css` and the
file's exact bytes. -/
theorem style_css_c8 (fs : FS) (st : AppState) (sc : PathC) (bs : List Nat)
    (hcb : fs.canon st.static_dir = some sc)
    (hcf : fs.canon (pjoin st.static_dir (parsePath (("style.css").data))) =
        some (pjoin sc ⟨false, [styleCssSeg]⟩))
    (hm : fs.metadata (pjoin sc ⟨false, [styleCssSeg]⟩) = some false)
    (hr : fs.readBin (pjoin sc ⟨false, [styleCssSeg]⟩) = some bs) :
    handle_wildcard fs (("style.css").data) st =
      ⟨200, ("text/css").data, RBody.fileBytes bs⟩ := by
  unfold handle_wildcard
  rw [if_pos (by decide)]
  have hsw := pstartsWith_pjoin sc [styleCssSeg]
  have hserve := serve_file_success fs _ st.static_dir sc _ false bs hcb hcf
    hsw hm hr
  rw [hserve]
  have hext : pathExtension (pjoin sc ⟨false, [styleCssSeg]⟩) =
      some (("css").data) := by
    rw [pathExtension_pjoin sc ⟨false, [styleCssSeg]⟩ (by decide)]
    decide
  rw [hext]
  congr 1

/-- Witness for C8 at a concrete filesystem. -/
theorem style_css_c8_witness :
    handle_wildcard fsW (("style.css").data) stW =
      ⟨200, ("text/css").data, RBody.fileBytes cssBytes⟩ :=
  style_css_c8 fsW stW staticDirW cssBytes (by decide) (by decide)
    (by decide) (by decide)

/-- C9: for a readable UTF-8 file `<pages>/about.html` inside the canonical
pages root, `/about` and `/about.html` produce the very same response, a 200
carrying the file's content. -/
theorem about_roundtrip_c9 (fs : FS) (st : AppState) (pc : PathC)
    (bs : List Nat)
    (hcb : fs.canon st.pages_dir = some pc)
    (hcf : fs.canon (pjoin st.pages_dir ⟨false, [aboutHtmlSeg]⟩) =
        some (pjoin pc ⟨false, [aboutHtmlSeg]⟩))
    (hm : fs.metadata (pjoin pc ⟨false, [aboutHtmlSeg]⟩) = some false)
    (hr : fs.readBin (pjoin pc ⟨false, [aboutHtmlSeg]⟩) = some bs)
    (hv : utf8Valid bs = true) :
    handle_wildcard fs (("about").data) st =
      handle_wildcard fs (("about.html").data) st ∧
    (handle_wildcard fs (("about").data) st).status = 200 ∧
    (handle_wildcard fs (("about").data) st).body = RBody.fileBytes bs := by
  have hcand1 : htmlCandidate st.pages_dir (("about").data) =
      pjoin st.pages_dir ⟨false, [aboutHtmlSeg]⟩ := by
    rw [htmlCandidate_single_noext st.pages_dir (("about").data)
      (("about").data) (by decide) (by decide) (by decide) (by decide)]
    rw [show ("about").data ++ '.' :: htmlExtName = aboutHtmlSeg from by decide]
  have hcand2 : htmlCandidate st.pages_dir (("about.html").data) =
      pjoin st.pages_dir ⟨false, [aboutHtmlSeg]⟩ :=
    htmlCandidate_single_ext st.pages_dir (("about.html").data) aboutHtmlSeg
      htmlExtName (by decide) (by decide) (by decide)
  have hread : readContent fs (pjoin pc ⟨false, [aboutHtmlSeg]⟩) true =
      some bs := by
    unfold readContent
    rw [if_pos rfl]
    unfold readToString
    simp only [hr]
    rw [if_pos hv]
  have hserve := serve_file_success fs (pjoin st.pages_dir ⟨false, [aboutHtmlSeg]⟩)
    st.pages_dir pc (pjoin pc ⟨false, [aboutHtmlSeg]⟩) true bs hcb hcf
    (pstartsWith_pjoin pc [aboutHtmlSeg]) hm hread
  have e1 : handle_wildcard fs (("about").data) st =
      serve_file fs (pjoin st.pages_dir ⟨false, [aboutHtmlSeg]⟩)
        st.pages_dir true := by
    unfold handle_wildcard
    rw [if_neg (by decide)]
    unfold serve_html
    rw [hcand1]
  have e2 : handle_wildcard fs (("about.html").data) st =
      serve_file fs (pjoin st.pages_dir ⟨false, [aboutHtmlSeg]⟩)
        st.pages_dir true := by
    unfold handle_wildcard
    rw [if_neg (by decide)]
    unfold serve_html
    rw [hcand2]
  refine ⟨by rw [e1, e2], ?_, ?_⟩
  · rw [e1, hserve]
  · rw [e1, hserve]

/-- Witness for C9 at a concrete filesystem. -/
theorem about_roundtrip_c9_witness :
    handle_wildcard fsW (("about").data) stW =
      handle_wildcard fsW (("about.html").data) stW ∧
    (handle_wildcard fsW (("about").data) stW).status = 200 ∧
    (handle_wildcard fsW (("about").data) stW).body =
      RBody.fileBytes aboutBytes :=
  about_roundtrip_c9 fsW stW pagesDirW aboutBytes (by decide) (by decide)
    (by decide) (by decide) (by decide)

/-- C10: a pages-root (text mode) request whose target passes every guard
check but whose bytes are not valid UTF-8 is answered with the
internal-error response, while a static-root (binary mode) request returns
the raw bytes with no encoding restriction. -/
theorem utf8_text_mode_c10 (fs : FS) (st : AppState) (p : List Char)
    (baseC candC : PathC) (bs : List Nat) :
    (reqExtension p = htmlExtName →
        fs.canon st.pages_dir = some baseC →
        fs.canon (wildcardCandidate st p) = some candC →
        pstartsWith candC baseC = true →
        fs.metadata candC = some false →
        fs.readBin candC = some bs →
        utf8Valid bs = false →
        handle_wildcard fs p st = internal_error fs st.pages_dir) ∧
    (reqExtension p ≠ htmlExtName →
        fs.canon st.static_dir = some baseC →
        fs.canon (wildcardCandidate st p) = some candC →
        pstartsWith candC baseC = true →
        fs.metadata candC = some false →
        fs.readBin candC = some bs →
        handle_wildcard fs p st =
          ⟨200, mimeGuess (pathExtension candC), RBody.fileBytes bs⟩) := by
  constructor
  · intro hh hcb hcf hs hm hr hv
    rw [handle_wildcard_eq]
    have hroot : wildcardRoot st p = st.pages_dir := by
      unfold wildcardRoot
      rw [if_neg (by simp [hh])]
    have htext : wildcardIsText p = true := by
      unfold wildcardIsText
      rw [if_neg (by simp [hh])]
    rw [hroot, htext] at *
    refine serve_file_read_fail fs _ _ baseC candC true hcb hcf hs hm ?_
    unfold readContent
    rw [if_pos rfl]
    unfold readToString
    simp only [hr]
    rw [if_neg (by rw [hv]; decide)]
  · intro hh hcb hcf hs hm hr
    rw [handle_wildcard_eq]
    have hroot : wildcardRoot st p = st.static_dir := by
      unfold wildcardRoot
      rw [if_pos hh]
    have htext : wildcardIsText p = false := by
      unfold wildcardIsText
      rw [if_pos hh]
    rw [hroot, htext] at *
    exact serve_file_success fs _ _ baseC candC false bs hcb hcf hs hm hr

/-- Witness for C10: the invalid-UTF-8 page `bad.html` yields the
internal-error response in text mode. -/
theorem utf8_text_mode_c10_witness :
    handle_wildcard fsW (("bad").data) stW =
      internal_error fsW stW.pages_dir :=
  (utf8_text_mode_c10 fsW stW (("bad").data) pagesDirW badPathW badBytes).1
    (by decide) (by decide) (by decide) (by decide) (by decide) (by decide)
    (by decide)

/-- Inversion of `fileName`: a file name is the last component and is not
`..`. -/
theorem fileName_inv (q : PathC) (nm : List Char) (h : fileName q = some nm) :
    q.segs.getLast? = some nm ∧ nm ≠ dotdotSeg := by
  unfold fileName at h
  cases hgl : q.segs.getLast? with
  | none => rw [hgl] at h; cases h
  | some s =>
      simp only [hgl] at h
      by_cases hd : s = dotdotSeg
      · rw [if_pos hd] at h; cases h
      · rw [if_neg hd] at h
        injection h with h2
        subst h2
        exact ⟨rfl, hd⟩

/-- C2 counterexample: the request path `..` has no extension and routes to
the pages root, yet no `.html` is appended — the candidate is the bare join
`<pages>/..`, still without an extension. -/
theorem routing_c2_counterexample :
    pathExtension (parsePath (("..").data)) = none ∧
    reqExtension (("..").data) = htmlExtName ∧
    wildcardCandidate stW (("..").data) =
      pjoin stW.pages_dir (parsePath (("..").data)) ∧
    pathExtension (wildcardCandidate stW (("..").data)) = none ∧
    handle_wildcard fsW (("..").data) stW =
      serve_file fsW (pjoin stW.pages_dir (parsePath (("..").data)))
        stW.pages_dir true := by
  exact ⟨by decide, by decide, by decide, by decide, by decide⟩

/-- C2 (amended): a non-root request path with an extension other than
`html` (case-insensitively) is served as binary from the static root with
its extension preserved; a path with extension `html` is served as text from
the pages root with no appending; a path with no extension is served as text
from the pages root, with `.html` appended to the joined path exactly when
that joined path still has no extension and has a non-empty file name — in
particular nothing is appended when the joined path's last component is
`..`. -/
theorem routing_c2_amended (fs : FS) (st : AppState) (p : List Char) :
    (∀ e, pathExtension (parsePath p) = some e → lowerStr e ≠ htmlExtName →
        handle_wildcard fs p st =
          serve_file fs (pjoin st.static_dir (parsePath p))
            st.static_dir false ∧
        pathExtension (pjoin st.static_dir (parsePath p)) = some e) ∧
    (∀ e, pathExtension (parsePath p) = some e → lowerStr e = htmlExtName →
        handle_wildcard fs p st =
          serve_file fs (pjoin st.pages_dir (parsePath p))
            st.pages_dir true) ∧
    (pathExtension (parsePath p) = none →
        handle_wildcard fs p st =
          serve_file fs (htmlCandidate st.pages_dir p) st.pages_dir true ∧
        (∀ nm, fileName (pjoin st.pages_dir (parsePath p)) = some nm →
            nm ≠ [] →
            pathExtension (pjoin st.pages_dir (parsePath p)) = none →
            pathExtension (htmlCandidate st.pages_dir p) = some htmlExtName) ∧
        (fileName (pjoin st.pages_dir (parsePath p)) = none →
            htmlCandidate st.pages_dir p = pjoin st.pages_dir (parsePath p))) := by
  refine ⟨?_, ?_, ?_⟩
  · intro e he hne
    have hre : reqExtension p = lowerStr e := by
      unfold reqExtension
      rw [he]
      rfl
    constructor
    · unfold handle_wildcard
      rw [if_pos (by rw [hre]; exact hne)]
    · obtain ⟨nm, hfn, _⟩ := pathExtension_some_fileName _ e he
      rw [pathExtension_pjoin _ _ (fileName_some_segs_ne _ nm hfn)]
      exact he
  · intro e he heq
    have hre : reqExtension p = htmlExtName := by
      unfold reqExtension
      rw [he]
      exact heq
    unfold handle_wildcard
    rw [if_neg (by simp [hre])]
    unfold serve_html
    have hcand : htmlCandidate st.pages_dir p =
        pjoin st.pages_dir (parsePath p) := by
      unfold htmlCandidate
      obtain ⟨nm, hfn, _⟩ := pathExtension_some_fileName _ e he
      rw [if_neg (by
        rw [pathExtension_pjoin _ _ (fileName_some_segs_ne _ nm hfn), he]
        simp)]
    rw [hcand]
  · intro hnone
    have hre : reqExtension p = htmlExtName := by
      unfold reqExtension
      rw [hnone]
      decide
    refine ⟨?_, ?_, ?_⟩
    · unfold handle_wildcard
      rw [if_neg (by simp [hre])]
      rfl
    · intro nm hfn hnm hpe
      obtain ⟨hgl, hnd⟩ := fileName_inv _ nm hfn
      have hx : extOfName nm = none := by
        unfold pathExtension at hpe
        simp only [hfn] at hpe
        exact hpe
      unfold htmlCandidate
      rw [if_pos hpe]
      exact (setExt_of_noext (pjoin st.pages_dir (parsePath p)) nm hgl hnd
        hnm hx).2
    · intro hfn
      have hpe : pathExtension (pjoin st.pages_dir (parsePath p)) = none := by
        unfold pathExtension
        simp only [hfn]
      unfold htmlCandidate
      rw [if_pos hpe]
      unfold setExt
      unfold fileName at hfn
      cases hgl : (pjoin st.pages_dir (parsePath p)).segs.getLast? with
      | none => simp only [hgl]
      | some s =>
          simp only [hgl] at hfn ⊢
          by_cases hd : s = dotdotSeg
          · rw [if_pos hd]
          · rw [if_neg hd] at hfn
            cases hfn

/-- Witness for the amended C2 at `/style.css` on a concrete filesystem. -/
theorem routing_c2_witness :
    handle_wildcard fsW (("style.css").data) stW =
      serve_file fsW (pjoin stW.static_dir (parsePath (("style.css").data)))
        stW.static_dir false ∧
    pathExtension (pjoin stW.static_dir (parsePath (("style.css").data))) =
      some (("css").data) :=
  (routing_c2_amended fsW stW (("style.css").data)).1 (("css").data)
    (by decide) (by decide)

/-- C4 counterexample: with the override `<pages>/not-found.html` present
but unreadable, a request whose resolved target is absent is answered with
status 500 (the built-in internal-error page), not 404. -/
theorem notfound_c4_counterexample :
    fsOverrideBroken.canon (wildcardCandidate stW (("missing").data)) =
      none ∧
    handle_wildcard fsOverrideBroken (("missing").data) stW =
      default_internal_error ∧
    (handle_wildcard fsOverrideBroken (("missing").data) stW).status = 500 := by
  exact ⟨by decide, by decide, by decide⟩

/-- C4 (amended): any of the three causes — candidate fails to canonicalize,
canonical candidate escapes the root, metadata failure or directory — makes
`serve_file` answer with the identical `not_found` response, so the causes
are indistinguishable; that response has status 404 with the built-in body
when no override exists, and the override's content (still 404) when the
override reads; only a present-but-unreadable override degrades it to the
internal-error path. -/
theorem notfound_c4_amended (fs : FS) (b baseC f1 f2 : PathC) (t1 t2 : Bool)
    (hcb : fs.canon b = some baseC)
    (h1 : resolveFailsB fs f1 baseC = true)
    (h2 : resolveFailsB fs f2 baseC = true) :
    serve_file fs f1 b t1 = not_found fs b ∧
    serve_file fs f2 b t2 = serve_file fs f1 b t1 ∧
    (fs.pathExists (pjoin b notFoundRel) = false →
        not_found fs b =
          ⟨404, textHtmlMime, RBody.fixedPage FixedPage.notFoundPage⟩) ∧
    (∀ c, fs.pathExists (pjoin b notFoundRel) = true →
        readToString fs (pjoin b notFoundRel) = some c →
        not_found fs b = ⟨404, textHtmlMime, RBody.fileBytes c⟩) := by
  refine ⟨serve_file_fails fs f1 b baseC t1 hcb h1, ?_, ?_, ?_⟩
  · rw [serve_file_fails fs f2 b baseC t2 hcb h2,
      serve_file_fails fs f1 b baseC t1 hcb h1]
  · intro h
    unfold not_found
    rw [if_pos h]
  · intro c hex hread
    unfold not_found
    rw [if_neg (by rw [hex]; decide)]
    simp only [hread]

/-- Witness for the amended C4: a missing file and a directory produce the
same built-in 404 on a concrete filesystem with no override. -/
theorem notfound_c4_witness :
    serve_file fsW ⟨true, [srvSeg, pagesSeg, ("nope.html").data]⟩ pagesDirW
      true = not_found fsW pagesDirW ∧
    serve_file fsW pagesDirW pagesDirW false =
      serve_file fsW ⟨true, [srvSeg, pagesSeg, ("nope.html").data]⟩ pagesDirW
        true ∧
    (fsW.pathExists (pjoin pagesDirW notFoundRel) = false →
        not_found fsW pagesDirW =
          ⟨404, textHtmlMime, RBody.fixedPage FixedPage.notFoundPage⟩) ∧
    (∀ c, fsW.pathExists (pjoin pagesDirW notFoundRel) = true →
        readToString fsW (pjoin pagesDirW notFoundRel) = some c →
        not_found fsW pagesDirW = ⟨404, textHtmlMime, RBody.fileBytes c⟩) :=
  notfound_c4_amended fsW pagesDirW pagesDirW
    ⟨true, [srvSeg, pagesSeg, ("nope.html").data]⟩ pagesDirW true false
    (by decide) (by decide) (by decide)

/-- C5: evaluation at the failing inputs.  With a readable
`<pages>/not-found.html` override present, both a root-canonicalization
failure and a post-guard read failure are answered with status 404 carrying
the override body — `internal_error` builds its override response with
`StatusCode::NOT_FOUND` — while the claim (and the spec's error taxonomy)
require status 500; only without a readable override does the code answer
500. -/
theorem internal_error_c5_eval :
    fsNoBase.canon pagesDirW = none ∧
    serve_file fsNoBase aboutPathW pagesDirW true =
      ⟨404, textHtmlMime, RBody.fileBytes nfBytes⟩ ∧
    fsReadFail.readBin badPathW = none ∧
    handle_wildcard fsReadFail (("bad").data) stW =
      ⟨404, textHtmlMime, RBody.fileBytes nfBytes⟩ ∧
    default_internal_error.status = 500 := by
  exact ⟨by decide, by decide, by decide, by decide, by decide⟩

/-- C6 counterexample: when `<pages>/not-found.html` exists but cannot be
read, `not_found` does not fall back to the built-in not-found payload with
status 404 — it transitions into `internal_error`, whose answer (same
unreadable override) is the built-in internal-error page with status 500. -/
theorem notfound_override_c6_counterexample :
    fsOverrideBroken.pathExists (pjoin pagesDirW notFoundRel) = true ∧
    readToString fsOverrideBroken (pjoin pagesDirW notFoundRel) = none ∧
    not_found fsOverrideBroken pagesDirW =
      internal_error fsOverrideBroken pagesDirW ∧
    not_found fsOverrideBroken pagesDirW = default_internal_error ∧
    (not_found fsOverrideBroken pagesDirW).status = 500 := by
  exact ⟨by decide, by decide, by decide, by decide, by decide⟩

/-- C6 (amended): an existing readable `<root>/not-found.html` override
replaces the built-in 404 body and the status stays 404; an absent override
gives the built-in 404 body; but when the override exists and reading it
fails, `not_found` delegates to `internal_error`, which — the same override
still being unreadable — answers the built-in internal-error payload with
status 500. -/
theorem notfound_override_c6_amended (fs : FS) (b : PathC) :
    (fs.pathExists (pjoin b notFoundRel) = false →
        not_found fs b =
          ⟨404, textHtmlMime, RBody.fixedPage FixedPage.notFoundPage⟩) ∧
    (∀ c, fs.pathExists (pjoin b notFoundRel) = true →
        readToString fs (pjoin b notFoundRel) = some c →
        not_found fs b = ⟨404, textHtmlMime, RBody.fileBytes c⟩) ∧
    (fs.pathExists (pjoin b notFoundRel) = true →
        readToString fs (pjoin b notFoundRel) = none →
        not_found fs b = internal_error fs b ∧
        internal_error fs b = default_internal_error) := by
  refine ⟨?_, ?_, ?_⟩
  · intro h
    unfold not_found
    rw [if_pos h]
  · intro c hex hread
    unfold not_found
    rw [if_neg (by rw [hex]; decide)]
    simp only [hread]
  · intro hex hread
    constructor
    · unfold not_found
      rw [if_neg (by rw [hex]; decide)]
      simp only [hread]
    · unfold internal_error
      rw [if_neg (by rw [hex]; decide)]
      simp only [hread]

/-- Witness for the amended C6 on the filesystem with the unreadable
override. -/
theorem notfound_override_c6_witness :
    not_found fsOverrideBroken pagesDirW =
      internal_error fsOverrideBroken pagesDirW ∧
    internal_error fsOverrideBroken pagesDirW = default_internal_error :=
  (notfound_override_c6_amended fsOverrideBroken pagesDirW).2.2
    (by decide) (by decide)

/-- C7 counterexample: a successfully served HTML page gets
`Content-Type: text/html` — the output of the `mime_guess` classifier on the
canonical path, which `serve_file` applies to HTML like everything else —
not the fixed value `text/html; charset=utf-8` stated by the claim. -/
theorem html_content_type_c7_counterexample :
    (handle_wildcard fsW (("about.html").data) stW).status = 200 ∧
    (handle_wildcard fsW (("about.html").data) stW).contentType =
      mimeGuess (pathExtension aboutPathW) ∧
    (handle_wildcard fsW (("about.html").data) stW).contentType =
      ("text/html").data ∧
    ("text/html").data ≠ ("text/html; charset=utf-8").data := by
  exact ⟨by decide, by decide, by decide, by decide⟩

/-- C7 (amended): every successfully served pages-root file whose canonical
path has extension `html` carries Content-Type `text/html`, computed by the
extension-to-MIME classifier from the canonical path; the response builder
fixes `text/html` directly only on the fallback and built-in pages. -/
theorem html_content_type_c7_amended (fs : FS) (st : AppState)
    (p : List Char) (baseC candC : PathC) (bs : List Nat)
    (hh : reqExtension p = htmlExtName)
    (hcb : fs.canon st.pages_dir = some baseC)
    (hcf : fs.canon (wildcardCandidate st p) = some candC)
    (hs : pstartsWith candC baseC = true)
    (hm : fs.metadata candC = some false)
    (hr : readContent fs candC true = some bs)
    (hx : pathExtension candC = some htmlExtName) :
    handle_wildcard fs p st = ⟨200, textHtmlMime, RBody.fileBytes bs⟩ ∧
    (handle_wildcard fs p st).contentType =
      mimeGuess (pathExtension candC) := by
  have heq : handle_wildcard fs p st =
      ⟨200, mimeGuess (pathExtension candC), RBody.fileBytes bs⟩ := by
    rw [handle_wildcard_eq]
    have hroot : wildcardRoot st p = st.pages_dir := by
      unfold wildcardRoot
      rw [if_neg (by simp [hh])]
    have htext : wildcardIsText p = true := by
      unfold wildcardIsText
      rw [if_neg (by simp [hh])]
    rw [hroot, htext]
    exact serve_file_success fs _ _ baseC candC true bs hcb hcf hs hm hr
  constructor
  · rw [heq, hx]
    congr 1
  · rw [heq]

/-- Witness for the amended C7 at a concrete filesystem. -/
theorem html_content_type_c7_witness :
    handle_wildcard fsW (("about.html").data) stW =
      ⟨200, textHtmlMime, RBody.fileBytes aboutBytes⟩ ∧
    (handle_wildcard fsW (("about.html").data) stW).contentType =
      mimeGuess (pathExtension aboutPathW) :=
  html_content_type_c7_amended fsW stW (("about.html").data) pagesDirW
    aboutPathW aboutBytes (by decide) (by decide) (by decide) (by decide)
    (by decide) (by decide) (by decide)

end Lime
